import Mathlib

/-!
Verification development for the with-simple-caching library.

The development shallowly embeds the current generation of the library
(the withSimpleCache / withSimpleCacheAsync wrappers, the extendable
surface withExtendableCache with its execute / invalidate / update
operations, and the cache-choice resolution helpers) as pure Lean
functions, and proves the behavioral properties stated in the design
document about them.

Modelling conventions:
- a JavaScript value that may be `undefined` is an `Option`: `none` is
  `undefined`, and `some v` is a present value (`null` is a present
  value, modelled by a distinguished constructor of a concrete value
  type where the null / undefined distinction matters);
- a cache backend state is a total map from string keys to
  possibly-absent stored values (`Store V`); `get` is application and
  `set` is pointwise update, matching the get / set capability contract
  the core consumes;
- the wrappers are state passing: an invocation maps a store to a
  result, a new store, and a trace of observable events (logic
  invocations, cache reads, cache writes with their set options, and
  applications of the value deserializer);
- fallible logic is `I -> Except E (Option O)`: `Except.error e` models
  a throw / rejection, `Except.ok none` models a computation that
  returned `undefined`;
- the asynchronous wrapper under sequential execution runs the same
  algorithm as the synchronous one (the two source bodies are identical
  up to `await`); the in-memory promise deduplication layer is modelled
  separately with an explicit in-flight table, exploiting the
  deterministic single-threaded event-loop semantics: each concurrent
  call runs its synchronous prefix (the deduplication-table check and
  registration) to the first suspension point before any pipeline
  completes.
-/

namespace WSC

/-- A cache backend state: a total map from string keys to possibly
absent stored values. `none` is the absent / `undefined` case. -/
def Store (V : Type) := String → Option V

/-- Reading a key from a store models `cache.get(key)`. -/
def Store.get {V : Type} (s : Store V) (k : String) : Option V := s k

/-- Writing a key models `cache.set(key, value)`: later reads of `k`
see `v` (which may be `none`, i.e. an explicit `undefined` write). -/
def Store.set {V : Type} (s : Store V) (k : String) (v : Option V) : Store V :=
  fun q => if q = k then v else s q

@[simp] theorem Store.get_set_self {V : Type} (s : Store V) (k : String) (v : Option V) :
    Store.set s k v k = v := by
  simp [Store.set]

@[simp] theorem Store.get_set_of_ne {V : Type} (s : Store V) (k q : String) (v : Option V)
    (h : q ≠ k) : Store.set s k v q = s q := by
  simp [Store.set, h]

/-- The empty backend: every key reads as `undefined`. -/
def Store.empty {V : Type} : Store V := fun _ => none

/-- Observable events of one pipeline run, in order of occurrence:
logic invocations, cache reads (with the value read), cache writes
(with the written value and the set options that accompanied the
write: `some d` is an options object carrying expiration `d`, `none`
is a set call made with no options argument, as in `invalidate`), and
applications of the caller supplied value deserializer (recording the
argument it was applied to). -/
inductive Event (I O V D : Type) where
  | logicCalled (input : I)
  | cacheGet (key : String) (result : Option V)
  | cacheSet (key : String) (value : Option V) (opts : Option D)
  | deserCalled (arg : Option V)
  deriving DecidableEq, Repr

/-- Configuration of a wrapped function, mirroring the serialize /
deserialize / expiration / bypass options of WithSimpleCacheOptions:
`serializeKey` is the key serialization method, `serializeValue` and
`deserializeValue` the value serde pair (taking and returning possibly
undefined values, as arbitrary JavaScript functions do), `expiration`
the configured expiration forwarded to set options, and the two bypass
predicates. -/
structure CacheConfig (I O V D : Type) where
  serializeKey : I → String
  serializeValue : Option O → Option V
  deserializeValue : Option V → Option O
  expiration : D
  bypassGet : I → Bool
  bypassSet : I → Bool

/-- One invocation of the decorated function: the body shared by
withSimpleCache (synchronous, part_015 lines 349-387) and the core of
withSimpleCacheAsync / withSimpleCachingAsync (lines 170-213 of
part_015 and lines 242-285 of withSimpleCachingAsync.ts), which run the
same algorithm with awaits at the cache and logic boundaries:
derive the key; read the cache unless the get bypass fires; on a
present value deserialize and return; otherwise invoke the logic
(propagating a throw); unless the set bypass fires, serialize the
output and write it with the configured expiration; on an `undefined`
output return it directly; otherwise re-read the key (get-after-set)
and return the deserialization of the freshly read value, falling back
to the locally held output if the re-read unexpectedly yields
`undefined`.

The definition is split in two along the hit early-return of the
source body: `withSimpleCacheMissBranch` is the part from the logic
invocation down, and `withSimpleCacheInvoke` the whole invocation. -/
def withSimpleCacheMissBranch {I O V D E : Type}
    (cfg : CacheConfig I O V D) (logic : I → Except E (Option O))
    (store : Store V) (x : I) :
    Except E (Option O) × Store V × List (Event I O V D) :=
  let key := cfg.serializeKey x
  match logic x with
  | Except.error e => (Except.error e, store, [Event.logicCalled x])
  | Except.ok output =>
      if cfg.bypassSet x then
        (Except.ok output, store, [Event.logicCalled x])
      else
        let serializedOutput := cfg.serializeValue output
        let store1 := Store.set store key serializedOutput
        let setEvents :=
          [Event.logicCalled x,
           Event.cacheSet key serializedOutput (some cfg.expiration)]
        match output with
        | none => (Except.ok none, store1, setEvents)
        | some o =>
            match Store.get store1 key with
            | some cv =>
                (Except.ok (cfg.deserializeValue (some cv)), store1,
                  setEvents ++ [Event.cacheGet key (some cv), Event.deserCalled (some cv)])
            | none =>
                (Except.ok (some o), store1,
                  setEvents ++ [Event.cacheGet key none])

def withSimpleCacheInvoke {I O V D E : Type}
    (cfg : CacheConfig I O V D) (logic : I → Except E (Option O))
    (store : Store V) (x : I) :
    Except E (Option O) × Store V × List (Event I O V D) :=
  let key := cfg.serializeKey x
  let cachedValue : Option V := if cfg.bypassGet x then none else Store.get store key
  let getEvents : List (Event I O V D) :=
    if cfg.bypassGet x then [] else [Event.cacheGet key (Store.get store key)]
  match cachedValue with
  | some cv =>
      (Except.ok (cfg.deserializeValue (some cv)), store,
        getEvents ++ [Event.deserCalled (some cv)])
  | none =>
      let m := withSimpleCacheMissBranch cfg logic store x
      (m.1, m.2.1, getEvents ++ m.2.2)

/-- Repeated sequential invocations of the decorated function with the
same input, threading the backend state and concatenating the traces. -/
def runCalls {I O V D E : Type}
    (cfg : CacheConfig I O V D) (logic : I → Except E (Option O)) (x : I) :
    Nat → Store V → List (Except E (Option O)) × Store V × List (Event I O V D)
  | 0, store => ([], store, [])
  | n + 1, store =>
      let r := withSimpleCacheInvoke cfg logic store x
      let rest := runCalls cfg logic x n r.2.1
      (r.1 :: rest.1, rest.2.1, r.2.2 ++ rest.2.2)

/-- Counts the logic invocations recorded in a trace. -/
def countLogicCalls {I O V D : Type} (t : List (Event I O V D)) : Nat :=
  (t.filter fun e => match e with | Event.logicCalled _ => true | _ => false).length

/-- Counts the cache writes recorded in a trace. -/
def countCacheSets {I O V D : Type} (t : List (Event I O V D)) : Nat :=
  (t.filter fun e => match e with | Event.cacheSet _ _ _ => true | _ => false).length

/-- Collects the set options of every cache write in a trace. -/
def setEventOpts {I O V D : Type} (t : List (Event I O V D)) : List (Option D) :=
  t.filterMap fun e => match e with | Event.cacheSet _ _ o => some o | _ => none

/-- Collects the argument of every deserializer application in a trace. -/
def deserArgs {I O V D : Type} (t : List (Event I O V D)) : List (Option V) :=
  t.filterMap fun e => match e with | Event.deserCalled a => some a | _ => none

/-- A small concrete universe of JavaScript values, used where the
distinction between `null` and other present values matters (an absent
or `undefined` value is `Option.none` and never a `JsVal`). -/
inductive JsVal where
  | vnull
  | vnum (n : Int)
  | vstr (s : String)
  | vbool (b : Bool)
  deriving DecidableEq, Repr

/-- The cache choice configuration: either a concrete cache capability
or a resolver that derives one from the call input, the tagged
rendering of the union that the source discriminates with isAFunction.
A resolver may fail to yield a usable cache, which the source treats as
a falsy return. -/
inductive CacheChoice (I C : Type) where
  | fixed (cache : C)
  | resolver (f : I → Option C)

/-- The error raised for configuration failures, carrying its message
(the source BadRequestError also carries a metadata object, which the
claims do not inspect). -/
structure BadRequestError where
  message : String
  deriving DecidableEq, Repr

/-- Mirrors getCacheFromCacheChoice (getCacheFromCacheOption.ts): a
callable choice is invoked with the call input and failing fast when it
yields no usable cache; a fixed choice is returned directly. -/
def getCacheFromCacheChoice {I C : Type} (forInput : I) (cacheOption : CacheChoice I C) :
    Except BadRequestError C :=
  match cacheOption with
  | CacheChoice.resolver f =>
      match f forInput with
      | some foundCache => Except.ok foundCache
      | none => Except.error
          (BadRequestError.mk "could not extract cache from input with cache resolution method")
  | CacheChoice.fixed c => Except.ok c

/-- The extendable methods which can trigger cache operations
(WithExtendableCacheTrigger). -/
inductive Trigger where
  | execute
  | invalidate
  | update
  deriving DecidableEq, Repr

/-- Mirrors trigger.toLowerCase() on the enum member names. -/
def Trigger.toLowerString : Trigger → String
  | Trigger.execute => "execute"
  | Trigger.invalidate => "invalidate"
  | Trigger.update => "update"

/-- The error message template thrown when a forKey operation has a
resolver cache choice and no explicitly supplied cache, with the
lowercased trigger name interpolated exactly as in the source. -/
def forKeyCacheMissingMessage (trigger : Trigger) : String :=
  "could not find the cache to " ++ trigger.toLowerString ++ " in. " ++
    trigger.toLowerString ++
    " was called forKey but the cache for this method was defined as a function which retrieves the cache from the input. therefore, since there is no input accessible, the cache should have been explicitly passed in on " ++
    trigger.toLowerString

/-- Addressing arguments of the invalidate and update operations:
either the full call input, or a known string key together with an
optionally supplied explicit cache capability. -/
inductive KeyArgs (I C : Type) where
  | forInput (input : I)
  | forKey (key : String) (cache : Option C)

/-- Mirrors getCacheFromCacheChoiceOrFromForKeyArgs: with forInput the
cache resolves as in execute; otherwise a fixed choice is used
directly; otherwise (resolver choice, forKey call) the explicitly
supplied cache is required, and its absence raises a BadRequestError
naming the triggering operation. -/
def getCacheFromCacheChoiceOrFromForKeyArgs {I C : Type}
    (args : KeyArgs I C) (cacheOption : CacheChoice I C) (trigger : Trigger) :
    Except BadRequestError C :=
  match args with
  | KeyArgs.forInput x => getCacheFromCacheChoice x cacheOption
  | KeyArgs.forKey _ explicitCache =>
      match cacheOption with
      | CacheChoice.fixed c => Except.ok c
      | CacheChoice.resolver _ =>
          match explicitCache with
          | none => Except.error (BadRequestError.mk (forKeyCacheMissingMessage trigger))
          | some c => Except.ok c

/-- The key used by the invalidate and update operations: derived from
forInput with the same key serializer as execute, or taken verbatim
from forKey. -/
def extKeyOf {I O V D C : Type} (cfg : CacheConfig I O V D) (args : KeyArgs I C) : String :=
  match args with
  | KeyArgs.forInput x => cfg.serializeKey x
  | KeyArgs.forKey k _ => k

/-- Mirrors the invalidate operation of the extendable surface
(withExtendableCache / withExtendableCaching): resolve the cache (with
forKey support), derive the key, and write `undefined` for that key,
with no set options and without invoking the wrapped logic. On success
it yields the new state of the resolved cache and the trace of backend
events. -/
def extInvalidate {I O V D : Type} (cfg : CacheConfig I O V D)
    (cacheOption : CacheChoice I (Store V)) (args : KeyArgs I (Store V)) :
    Except BadRequestError (Store V × List (Event I O V D)) :=
  match getCacheFromCacheChoiceOrFromForKeyArgs args cacheOption Trigger.invalidate with
  | Except.error e => Except.error e
  | Except.ok cache =>
      let key := extKeyOf cfg args
      Except.ok (Store.set cache key none, [Event.cacheSet key none none])

/-- The toValue argument of update: a literal new value, or a function
of the currently cached (deserialized, possibly absent) output, the
tagged rendering of the union the source discriminates with
isAFunction. -/
inductive ToValue (O : Type) where
  | literal (v : Option O)
  | derive (f : Option O → Option O)

/-- Resolution of the new value of an update: a function toValue is
applied to the deserialized currently cached output (fromCachedOutput),
a literal toValue is used as is. -/
def resolveToValue {O : Type} (tv : ToValue O) (fromCachedOutput : Option O) : Option O :=
  match tv with
  | ToValue.derive f => f fromCachedOutput
  | ToValue.literal v => v

/-- Mirrors the update operation of the extendable surface: resolve
the cache (with forKey support), derive the key, read the current
cached value and deserialize it when present (passing `undefined` as
fromCachedOutput otherwise), compute the new value (applying a
function toValue to fromCachedOutput, or taking a literal toValue),
serialize it with the same value serializer as execute, and write it
with the configured expiration in the set options. The wrapped logic
is never invoked. -/
def extUpdate {I O V D : Type} (cfg : CacheConfig I O V D)
    (cacheOption : CacheChoice I (Store V)) (args : KeyArgs I (Store V))
    (toValue : ToValue O) :
    Except BadRequestError (Store V × List (Event I O V D)) :=
  match getCacheFromCacheChoiceOrFromForKeyArgs args cacheOption Trigger.update with
  | Except.error e => Except.error e
  | Except.ok cache =>
      let key := extKeyOf cfg args
      let cachedValue := Store.get cache key
      let readEvents : List (Event I O V D) :=
        match cachedValue with
        | some cv => [Event.cacheGet key (some cv), Event.deserCalled (some cv)]
        | none => [Event.cacheGet key none]
      let deserializedCachedOutput : Option O :=
        match cachedValue with
        | some cv => cfg.deserializeValue (some cv)
        | none => none
      let newValue : Option O := resolveToValue toValue deserializedCachedOutput
      let serializedNewValue := cfg.serializeValue newValue
      Except.ok (Store.set cache key serializedNewValue,
        readEvents ++ [Event.cacheSet key serializedNewValue (some cfg.expiration)])

/-!
Deduplication layer of withSimpleCacheAsync / withSimpleCachingAsync.

The wrapper composes the primary asynchronous pipeline with an
in-memory synchronous deduplication cache that stores the in-flight
promise of each key: a call whose key already has an in-flight promise
returns that same promise; otherwise the primary pipeline is started,
its promise is registered under the key before any await completes,
and a finally handler removes the registration once the promise
settles, preserving the original outcome.

Under the deterministic single-threaded event-loop semantics, issuing
N concurrent calls runs each call through its synchronous prefix in
order before any pipeline completes. Promises are modelled as numeric
identifiers; `DedupState` holds the deduplication table, the list of
primary-pipeline executions that have been started (each settles as
one `withSimpleCacheInvoke` run against the backend), and the next
fresh identifier.
-/

/-- State of the in-memory deduplication layer: the in-flight table
(key to promise identifier), the primary pipelines started so far
(promise identifier and the input they run for), and the next fresh
promise identifier. -/
structure DedupState (I : Type) where
  dedup : Store Nat
  pipelines : List (Nat × I)
  nextId : Nat

/-- The initial deduplication state of a freshly instantiated wrapper:
an empty in-flight table and no started pipelines. -/
def DedupState.init {I : Type} : DedupState I :=
  { dedup := Store.empty, pipelines := [], nextId := 0 }

/-- Synchronous prefix of one deduplicated call, mirroring execute of
the deduplication surface (withSimpleCache applied to the in-memory
table with the shared key serializer and default value serde and
bypass): derive the key; when the table holds an in-flight promise for
it, return that promise unchanged; otherwise start the primary
pipeline, register its fresh promise under the key, and return it. -/
def startCall {I O V D : Type} (cfg : CacheConfig I O V D)
    (st : DedupState I) (x : I) : Nat × DedupState I :=
  let key := cfg.serializeKey x
  match Store.get st.dedup key with
  | some p => (p, st)
  | none =>
      let p := st.nextId
      (p, { dedup := Store.set st.dedup key (some p),
            pipelines := st.pipelines ++ [(p, x)],
            nextId := p + 1 })

/-- Synchronous prefixes of n concurrent calls with the same input,
issued back to back before any pipeline completes, collecting the
promise each call returns. -/
def startCalls {I O V D : Type} (cfg : CacheConfig I O V D) (x : I) :
    Nat → DedupState I → List Nat × DedupState I
  | 0, st => ([], st)
  | n + 1, st =>
      let first := startCall cfg st x
      let rest := startCalls cfg x n first.2
      (first.1 :: rest.1, rest.2)

/-- Settlement of one deduplicated call, mirroring the finally-then
chain attached to the shared promise: whatever the outcome of the
shared pipeline (a resolution or a rejection), the in-flight table
entry for the key is invalidated, and the call yields the original
outcome unchanged. -/
def settleCall {I O V D E : Type} (cfg : CacheConfig I O V D)
    (result : Except E (Option O)) (st : DedupState I) (x : I) :
    Except E (Option O) × DedupState I :=
  (result, { st with dedup := Store.set st.dedup (cfg.serializeKey x) none })

/-!
Characterization lemmas: one equation per reachable shape of a
pipeline invocation, and the behaviour of repeated sequential calls.
-/

theorem countLogicCalls_append {I O V D : Type} (s t : List (Event I O V D)) :
    countLogicCalls (s ++ t) = countLogicCalls s + countLogicCalls t := by
  simp [countLogicCalls, List.filter_append]

theorem countCacheSets_append {I O V D : Type} (s t : List (Event I O V D)) :
    countCacheSets (s ++ t) = countCacheSets s + countCacheSets t := by
  simp [countCacheSets, List.filter_append]

/-- A cache hit: with the get bypass off and a present stored value,
the invocation deserializes the stored value and returns, touching
neither the logic nor the store. -/
theorem invoke_hit {I O V D E : Type} (cfg : CacheConfig I O V D)
    (logic : I → Except E (Option O)) (store : Store V) (x : I) (cv : V)
    (hbg : cfg.bypassGet x = false)
    (hhit : store (cfg.serializeKey x) = some cv) :
    withSimpleCacheInvoke cfg logic store x =
      (Except.ok (cfg.deserializeValue (some cv)), store,
        [Event.cacheGet (cfg.serializeKey x) (some cv), Event.deserCalled (some cv)]) := by
  simp [withSimpleCacheInvoke, Store.get, hbg, hhit]

/-- A cache miss with a present output whose serialization is present:
the logic runs, the serialized output is written with the configured
expiration, the key is re-read, and the deserialization of the freshly
read value is returned. -/
theorem invoke_miss_ok {I O V D E : Type} (cfg : CacheConfig I O V D)
    (logic : I → Except E (Option O)) (store : Store V) (x : I) (o : O) (cv : V)
    (hbg : cfg.bypassGet x = false) (hbs : cfg.bypassSet x = false)
    (hmiss : store (cfg.serializeKey x) = none)
    (hlogic : logic x = Except.ok (some o))
    (hser : cfg.serializeValue (some o) = some cv) :
    withSimpleCacheInvoke cfg logic store x =
      (Except.ok (cfg.deserializeValue (some cv)),
        Store.set store (cfg.serializeKey x) (some cv),
        [Event.cacheGet (cfg.serializeKey x) none, Event.logicCalled x,
         Event.cacheSet (cfg.serializeKey x) (some cv) (some cfg.expiration),
         Event.cacheGet (cfg.serializeKey x) (some cv), Event.deserCalled (some cv)]) := by
  simp [withSimpleCacheInvoke, withSimpleCacheMissBranch, Store.get, hbg, hbs, hmiss,
    hlogic, hser]

/-- A cache miss on which the logic throws: the error propagates and
no write happens. -/
theorem invoke_miss_error {I O V D E : Type} (cfg : CacheConfig I O V D)
    (logic : I → Except E (Option O)) (store : Store V) (x : I) (e : E)
    (hbg : cfg.bypassGet x = false)
    (hmiss : store (cfg.serializeKey x) = none)
    (hlogic : logic x = Except.error e) :
    withSimpleCacheInvoke cfg logic store x =
      (Except.error e, store,
        [Event.cacheGet (cfg.serializeKey x) none, Event.logicCalled x]) := by
  simp [withSimpleCacheInvoke, withSimpleCacheMissBranch, Store.get, hbg, hmiss, hlogic]

/-- A bypassed get on which the logic throws: the error propagates and
no write happens, whatever the store holds. -/
theorem invoke_bypassGet_error {I O V D E : Type} (cfg : CacheConfig I O V D)
    (logic : I → Except E (Option O)) (store : Store V) (x : I) (e : E)
    (hbg : cfg.bypassGet x = true)
    (hlogic : logic x = Except.error e) :
    withSimpleCacheInvoke cfg logic store x =
      (Except.error e, store, [Event.logicCalled x]) := by
  simp [withSimpleCacheInvoke, withSimpleCacheMissBranch, Store.get, hbg, hlogic]

/-- A cache miss on which the logic returns `undefined`: the write
still happens (with the serialization of `undefined`), but `undefined`
is returned directly, with no re-read and no deserialization. -/
theorem invoke_miss_undefined {I O V D E : Type} (cfg : CacheConfig I O V D)
    (logic : I → Except E (Option O)) (store : Store V) (x : I)
    (hbg : cfg.bypassGet x = false) (hbs : cfg.bypassSet x = false)
    (hmiss : store (cfg.serializeKey x) = none)
    (hlogic : logic x = Except.ok none) :
    withSimpleCacheInvoke cfg logic store x =
      (Except.ok none, Store.set store (cfg.serializeKey x) (cfg.serializeValue none),
        [Event.cacheGet (cfg.serializeKey x) none, Event.logicCalled x,
         Event.cacheSet (cfg.serializeKey x) (cfg.serializeValue none) (some cfg.expiration)]) := by
  simp [withSimpleCacheInvoke, withSimpleCacheMissBranch, Store.get, hbg, hbs, hmiss, hlogic]

/-- Once the miss branch is reached the logic is invoked exactly once,
whatever its outcome and whatever the serde and set bypass do. -/
theorem missBranch_countLogic {I O V D E : Type} (cfg : CacheConfig I O V D)
    (logic : I → Except E (Option O)) (store : Store V) (x : I) :
    countLogicCalls (withSimpleCacheMissBranch cfg logic store x).2.2 = 1 := by
  unfold withSimpleCacheMissBranch
  cases hl : logic x with
  | error e => simp [countLogicCalls]
  | ok output =>
      cases hbs : cfg.bypassSet x with
      | true => simp [countLogicCalls]
      | false =>
          cases output with
          | none => simp [countLogicCalls]
          | some o =>
              cases hs : cfg.serializeValue (some o) with
              | none => simp [hs, countLogicCalls, Store.get]
              | some cv => simp [hs, countLogicCalls, Store.get]

/-- On a bypassed get or a cache miss, an invocation invokes the logic
exactly once. -/
theorem invoke_miss_countLogic {I O V D E : Type} (cfg : CacheConfig I O V D)
    (logic : I → Except E (Option O)) (store : Store V) (x : I)
    (h : cfg.bypassGet x = true ∨ store (cfg.serializeKey x) = none) :
    countLogicCalls (withSimpleCacheInvoke cfg logic store x).2.2 = 1 := by
  have hm := missBranch_countLogic cfg logic store x
  rcases h with hbg | hmiss
  · simp only [withSimpleCacheInvoke, hbg, if_true, List.nil_append]
    exact hm
  · cases hbg : cfg.bypassGet x with
    | true =>
        simp only [withSimpleCacheInvoke, hbg, if_true, List.nil_append]
        exact hm
    | false =>
        simp only [withSimpleCacheInvoke, Store.get, hbg, Bool.false_eq_true, if_false, hmiss]
        rw [countLogicCalls_append, hm]
        simp [countLogicCalls]

/-- Repeated calls against a store that already holds the key: every
call is a hit returning the deserialized stored value, the store never
changes, and the logic is never invoked. -/
theorem runCalls_hit {I O V D E : Type} (cfg : CacheConfig I O V D)
    (logic : I → Except E (Option O)) (x : I) (cv : V) (n : Nat) (store : Store V)
    (hbg : cfg.bypassGet x = false)
    (hhit : store (cfg.serializeKey x) = some cv) :
    (runCalls cfg logic x n store).1 =
        List.replicate n (Except.ok (cfg.deserializeValue (some cv))) ∧
    (runCalls cfg logic x n store).2.1 = store ∧
    countLogicCalls (runCalls cfg logic x n store).2.2 = 0 := by
  induction n with
  | zero => simp [runCalls, countLogicCalls]
  | succ n ih =>
      obtain ⟨h1, h2, h3⟩ := ih
      simp only [runCalls, invoke_hit cfg logic store x cv hbg hhit]
      refine ⟨?_, h2, ?_⟩
      · simp [h1, List.replicate]
      · rw [countLogicCalls_append, h3]
        simp [countLogicCalls]

/-- A miss followed by any number of repeated calls: the first call
computes and populates the key, every call (the first included)
returns the deserialization of the stored serialized output, and the
logic runs exactly once overall. -/
theorem runCalls_miss_then_hit {I O V D E : Type} (cfg : CacheConfig I O V D)
    (logic : I → Except E (Option O)) (store : Store V) (x : I) (o : O) (cv : V) (n : Nat)
    (hbg : cfg.bypassGet x = false) (hbs : cfg.bypassSet x = false)
    (hmiss : store (cfg.serializeKey x) = none)
    (hlogic : logic x = Except.ok (some o))
    (hser : cfg.serializeValue (some o) = some cv) :
    (runCalls cfg logic x (n + 1) store).1 =
        List.replicate (n + 1) (Except.ok (cfg.deserializeValue (some cv))) ∧
    (runCalls cfg logic x (n + 1) store).2.1 =
        Store.set store (cfg.serializeKey x) (some cv) ∧
    countLogicCalls (runCalls cfg logic x (n + 1) store).2.2 = 1 := by
  simp only [runCalls, invoke_miss_ok cfg logic store x o cv hbg hbs hmiss hlogic hser]
  have hhit2 : Store.set store (cfg.serializeKey x) (some cv) (cfg.serializeKey x) = some cv :=
    Store.get_set_self store (cfg.serializeKey x) (some cv)
  obtain ⟨h1, h2, h3⟩ := runCalls_hit cfg logic x cv n
    (Store.set store (cfg.serializeKey x) (some cv)) hbg hhit2
  refine ⟨?_, h2, ?_⟩
  · simp [h1, List.replicate]
  · rw [countLogicCalls_append, h3]
    simp [countLogicCalls]

/-- Repeated calls whose logic keeps returning `undefined` (with a
serializer preserving `undefined`, as the default one does): the key
never becomes present, so the logic runs on every one of the n calls. -/
theorem runCalls_undefined {I O V D E : Type} (cfg : CacheConfig I O V D)
    (logic : I → Except E (Option O)) (x : I) (n : Nat) (store : Store V)
    (hbg : cfg.bypassGet x = false) (hbs : cfg.bypassSet x = false)
    (hlogic : logic x = Except.ok none)
    (hsu : cfg.serializeValue none = none)
    (hmiss : store (cfg.serializeKey x) = none) :
    countLogicCalls (runCalls cfg logic x n store).2.2 = n := by
  induction n generalizing store with
  | zero => simp [runCalls, countLogicCalls]
  | succ n ih =>
      simp only [runCalls, invoke_miss_undefined cfg logic store x hbg hbs hmiss hlogic, hsu]
      have hmiss2 : Store.set store (cfg.serializeKey x) none (cfg.serializeKey x) = none :=
        Store.get_set_self store (cfg.serializeKey x) none
      rw [countLogicCalls_append, ih _ hmiss2]
      simp [countLogicCalls, Nat.add_comm]

theorem setEventOpts_append {I O V D : Type} (s t : List (Event I O V D)) :
    setEventOpts (s ++ t) = setEventOpts s ++ setEventOpts t := by
  simp [setEventOpts, List.filterMap_append]

theorem deserArgs_append {I O V D : Type} (s t : List (Event I O V D)) :
    deserArgs (s ++ t) = deserArgs s ++ deserArgs t := by
  simp [deserArgs, List.filterMap_append]

/-- Every cache write performed by the miss branch carries the
configured expiration in its set options. -/
theorem missBranch_setOpts {I O V D E : Type} (cfg : CacheConfig I O V D)
    (logic : I → Except E (Option O)) (store : Store V) (x : I) :
    ∀ o ∈ setEventOpts (withSimpleCacheMissBranch cfg logic store x).2.2,
      o = some cfg.expiration := by
  intro o ho
  unfold withSimpleCacheMissBranch at ho
  cases hl : logic x with
  | error e => simp [hl, setEventOpts] at ho
  | ok output =>
      simp only [hl] at ho
      cases hbs : cfg.bypassSet x with
      | true => simp [hbs, setEventOpts] at ho
      | false =>
          simp only [hbs, Bool.false_eq_true, if_false] at ho
          cases output with
          | none =>
              simp [setEventOpts] at ho
              exact ho
          | some o2 =>
              cases hs : cfg.serializeValue (some o2) with
              | none =>
                  simp [hs, setEventOpts, Store.get] at ho
                  exact ho
              | some cv =>
                  simp [hs, setEventOpts, Store.get] at ho
                  exact ho

/-- Every application of the value deserializer recorded by the miss
branch received a present (non-undefined) cached value. -/
theorem missBranch_deserArgs {I O V D E : Type} (cfg : CacheConfig I O V D)
    (logic : I → Except E (Option O)) (store : Store V) (x : I) :
    ∀ a ∈ deserArgs (withSimpleCacheMissBranch cfg logic store x).2.2,
      a.isSome = true := by
  intro a ha
  unfold withSimpleCacheMissBranch at ha
  cases hl : logic x with
  | error e => simp [hl, deserArgs] at ha
  | ok output =>
      simp only [hl] at ha
      cases hbs : cfg.bypassSet x with
      | true => simp [hbs, deserArgs] at ha
      | false =>
          simp only [hbs, Bool.false_eq_true, if_false] at ha
          cases output with
          | none => simp [deserArgs] at ha
          | some o2 =>
              cases hs : cfg.serializeValue (some o2) with
              | none => simp [hs, deserArgs, Store.get] at ha
              | some cv =>
                  simp [hs, deserArgs, Store.get] at ha
                  simp [ha]

/-- Every cache write performed by a pipeline invocation carries the
configured expiration in its set options. -/
theorem invoke_setOpts {I O V D E : Type} (cfg : CacheConfig I O V D)
    (logic : I → Except E (Option O)) (store : Store V) (x : I) :
    ∀ o ∈ setEventOpts (withSimpleCacheInvoke cfg logic store x).2.2,
      o = some cfg.expiration := by
  intro o ho
  unfold withSimpleCacheInvoke at ho
  cases hbg : cfg.bypassGet x with
  | true =>
      simp only [hbg, if_true, List.nil_append] at ho
      exact missBranch_setOpts cfg logic store x o ho
  | false =>
      simp only [hbg, Bool.false_eq_true, if_false] at ho
      cases hhit : Store.get store (cfg.serializeKey x) with
      | some cv => simp [hhit, setEventOpts] at ho
      | none =>
          simp only [hhit, setEventOpts_append] at ho
          rcases List.mem_append.1 ho with h | h
          · simp [setEventOpts] at h
          · exact missBranch_setOpts cfg logic store x o h

/-- Every application of the value deserializer recorded by a pipeline
invocation received a present (non-undefined) cached value. -/
theorem invoke_deserArgs {I O V D E : Type} (cfg : CacheConfig I O V D)
    (logic : I → Except E (Option O)) (store : Store V) (x : I) :
    ∀ a ∈ deserArgs (withSimpleCacheInvoke cfg logic store x).2.2,
      a.isSome = true := by
  intro a ha
  unfold withSimpleCacheInvoke at ha
  cases hbg : cfg.bypassGet x with
  | true =>
      simp only [hbg, if_true, List.nil_append] at ha
      exact missBranch_deserArgs cfg logic store x a ha
  | false =>
      simp only [hbg, Bool.false_eq_true, if_false] at ha
      cases hhit : Store.get store (cfg.serializeKey x) with
      | some cv =>
          simp [hhit, deserArgs] at ha
          simp [ha]
      | none =>
          simp only [hhit, deserArgs_append] at ha
          rcases List.mem_append.1 ha with h | h
          · simp [deserArgs] at h
          · exact missBranch_deserArgs cfg logic store x a h

/-!
Lemmas about the extendable surface and the deduplication layer.
-/

/-- With a fixed configured cache, invalidate resolves that cache
(whether addressed by input or by key) and writes `undefined` for the
derived key with no set options. -/
theorem extInvalidate_fixed {I O V D : Type} (cfg : CacheConfig I O V D)
    (store : Store V) (args : KeyArgs I (Store V)) :
    extInvalidate cfg (CacheChoice.fixed store) args =
      Except.ok (Store.set store (extKeyOf cfg args) none,
        ([Event.cacheSet (extKeyOf cfg args) none none] : List (Event I O V D))) := by
  cases args <;>
    simp [extInvalidate, getCacheFromCacheChoiceOrFromForKeyArgs,
      getCacheFromCacheChoice, extKeyOf]

/-- With a resolver cache choice, an invalidate addressed by key with
no explicitly supplied cache fails with the configuration error naming
the invalidate operation. -/
theorem extInvalidate_resolver_forKey_none {I O V D : Type} (cfg : CacheConfig I O V D)
    (f : I → Option (Store V)) (k : String) :
    extInvalidate (O := O) (D := D) cfg (CacheChoice.resolver f) (KeyArgs.forKey k none) =
      Except.error (BadRequestError.mk (forKeyCacheMissingMessage Trigger.invalidate)) := by
  simp [extInvalidate, getCacheFromCacheChoiceOrFromForKeyArgs]

/-- With a resolver cache choice, an invalidate addressed by key uses
the explicitly supplied cache when one is given. -/
theorem extInvalidate_resolver_forKey_some {I O V D : Type} (cfg : CacheConfig I O V D)
    (f : I → Option (Store V)) (k : String) (c : Store V) :
    extInvalidate cfg (CacheChoice.resolver f) (KeyArgs.forKey k (some c)) =
      Except.ok (Store.set c k none, ([Event.cacheSet k none none] : List (Event I O V D))) := by
  simp [extInvalidate, getCacheFromCacheChoiceOrFromForKeyArgs, extKeyOf]

/-- With a resolver cache choice, an update addressed by key with no
explicitly supplied cache fails with the configuration error naming
the update operation. -/
theorem extUpdate_resolver_forKey_none {I O V D : Type} (cfg : CacheConfig I O V D)
    (f : I → Option (Store V)) (k : String) (tv : ToValue O) :
    extUpdate (D := D) cfg (CacheChoice.resolver f) (KeyArgs.forKey k none) tv =
      Except.error (BadRequestError.mk (forKeyCacheMissingMessage Trigger.update)) := by
  simp [extUpdate, getCacheFromCacheChoiceOrFromForKeyArgs]

/-- Update against a fixed cache whose key currently holds a value:
the current value is read and deserialized, the new value is resolved
from it, serialized with the execute serializer, and written under the
same key with the configured expiration. -/
theorem extUpdate_fixed_present {I O V D : Type} (cfg : CacheConfig I O V D)
    (store : Store V) (args : KeyArgs I (Store V)) (tv : ToValue O) (cv : V)
    (hcv : store (extKeyOf cfg args) = some cv) :
    extUpdate cfg (CacheChoice.fixed store) args tv =
      Except.ok (Store.set store (extKeyOf cfg args)
          (cfg.serializeValue (resolveToValue tv (cfg.deserializeValue (some cv)))),
        [Event.cacheGet (extKeyOf cfg args) (some cv),
         Event.deserCalled (some cv),
         Event.cacheSet (extKeyOf cfg args)
           (cfg.serializeValue (resolveToValue tv (cfg.deserializeValue (some cv))))
           (some cfg.expiration)]) := by
  cases args <;>
    simp_all [extUpdate, getCacheFromCacheChoiceOrFromForKeyArgs,
      getCacheFromCacheChoice, extKeyOf, Store.get]

/-- Update against a fixed cache whose key is currently absent: the
deserializer is not applied, fromCachedOutput is `undefined`, and the
resolved new value is serialized and written with the configured
expiration. -/
theorem extUpdate_fixed_absent {I O V D : Type} (cfg : CacheConfig I O V D)
    (store : Store V) (args : KeyArgs I (Store V)) (tv : ToValue O)
    (hcv : store (extKeyOf cfg args) = none) :
    extUpdate cfg (CacheChoice.fixed store) args tv =
      Except.ok (Store.set store (extKeyOf cfg args)
          (cfg.serializeValue (resolveToValue tv none)),
        [Event.cacheGet (extKeyOf cfg args) none,
         Event.cacheSet (extKeyOf cfg args)
           (cfg.serializeValue (resolveToValue tv none))
           (some cfg.expiration)]) := by
  cases args <;>
    simp_all [extUpdate, getCacheFromCacheChoiceOrFromForKeyArgs,
      getCacheFromCacheChoice, extKeyOf, Store.get]

/-- Every cache write performed by a successful update carries the
configured expiration in its set options. -/
theorem extUpdate_setOpts {I O V D : Type} (cfg : CacheConfig I O V D)
    (choice : CacheChoice I (Store V)) (args : KeyArgs I (Store V)) (tv : ToValue O)
    (s1 : Store V) (tr : List (Event I O V D))
    (h : extUpdate cfg choice args tv = Except.ok (s1, tr)) :
    ∀ o ∈ setEventOpts tr, o = some cfg.expiration := by
  intro o ho
  unfold extUpdate at h
  cases hc : getCacheFromCacheChoiceOrFromForKeyArgs args choice Trigger.update with
  | error e => rw [hc] at h; cases h
  | ok cache =>
      rw [hc] at h
      cases hcv : Store.get cache (extKeyOf cfg args) with
      | some cv =>
          simp only [hcv, Except.ok.injEq, Prod.mk.injEq] at h
          obtain ⟨h1, htr⟩ := h
          subst htr
          simp [setEventOpts] at ho
          exact ho
      | none =>
          simp only [hcv, Except.ok.injEq, Prod.mk.injEq] at h
          obtain ⟨h1, htr⟩ := h
          subst htr
          simp [setEventOpts] at ho
          exact ho

/-- Every application of the value deserializer recorded by a
successful update received a present (non-undefined) cached value. -/
theorem extUpdate_deserArgs {I O V D : Type} (cfg : CacheConfig I O V D)
    (choice : CacheChoice I (Store V)) (args : KeyArgs I (Store V)) (tv : ToValue O)
    (s1 : Store V) (tr : List (Event I O V D))
    (h : extUpdate cfg choice args tv = Except.ok (s1, tr)) :
    ∀ a ∈ deserArgs tr, a.isSome = true := by
  intro a ha
  unfold extUpdate at h
  cases hc : getCacheFromCacheChoiceOrFromForKeyArgs args choice Trigger.update with
  | error e => rw [hc] at h; cases h
  | ok cache =>
      rw [hc] at h
      cases hcv : Store.get cache (extKeyOf cfg args) with
      | some cv =>
          simp only [hcv, Except.ok.injEq, Prod.mk.injEq] at h
          obtain ⟨h1, htr⟩ := h
          subst htr
          simp [deserArgs] at ha
          simp [ha]
      | none =>
          simp only [hcv, Except.ok.injEq, Prod.mk.injEq] at h
          obtain ⟨h1, htr⟩ := h
          subst htr
          simp [deserArgs] at ha

/-- Concurrent calls arriving while the key already has an in-flight
promise all return that promise without starting a new pipeline or
touching the deduplication state. -/
theorem startCalls_inflight {I O V D : Type} (cfg : CacheConfig I O V D) (x : I) (p : Nat)
    (n : Nat) (st : DedupState I)
    (hin : st.dedup (cfg.serializeKey x) = some p) :
    startCalls (O := O) (V := V) (D := D) cfg x n st = (List.replicate n p, st) := by
  induction n with
  | zero => simp [startCalls]
  | succ n ih => simp [startCalls, startCall, Store.get, hin, ih, List.replicate]

/-- From a fresh deduplication state, the first of a burst of
concurrent same-input calls starts the single pipeline (promise 0) and
every later call of the burst shares that promise. -/
theorem startCalls_fresh {I O V D : Type} (cfg : CacheConfig I O V D) (x : I) (m : Nat) :
    startCalls (O := O) (V := V) (D := D) cfg x (m + 1) DedupState.init =
      (List.replicate (m + 1) 0,
        { dedup := Store.set Store.empty (cfg.serializeKey x) (some 0),
          pipelines := [(0, x)], nextId := 1 }) := by
  have hfirst : startCall (O := O) (V := V) (D := D) cfg (DedupState.init : DedupState I) x =
      (0, { dedup := Store.set Store.empty (cfg.serializeKey x) (some 0),
            pipelines := [(0, x)], nextId := 1 }) := by
    simp [startCall, DedupState.init, Store.get, Store.empty]
  have hmem : (Store.set (Store.empty : Store Nat) (cfg.serializeKey x) (some 0))
      (cfg.serializeKey x) = some 0 :=
    Store.get_set_self Store.empty (cfg.serializeKey x) (some 0)
  simp only [startCalls, hfirst]
  rw [startCalls_inflight (O := O) (V := V) (D := D) cfg x 0 m _ hmem]
  simp [List.replicate]

/-!
Concrete fixtures used to exhibit the claims at explicit inputs.
-/

/-- Integer instantiation with the default serde (identity value
serialization pair, like the noOp defaults), the input rendered as the
key (like the JSON.stringify default), a configured expiration of 42,
and bypass predicates that always answer false (the default behaviour
with an unset environment). -/
def cfgInt : CacheConfig Int Int Int Nat where
  serializeKey := fun i => toString i
  serializeValue := fun v => v
  deserializeValue := fun v => v
  expiration := 42
  bypassGet := fun _ => false
  bypassSet := fun _ => false

/-- Integer instantiation with a lossy deserializer that always
returns the fixed literal 99. -/
def cfgLossy : CacheConfig Int Int Int Nat where
  serializeKey := fun i => toString i
  serializeValue := fun v => v
  deserializeValue := fun _ => some 99
  expiration := 7
  bypassGet := fun _ => false
  bypassSet := fun _ => false

/-- JavaScript-value instantiation with the default serde, used for
the null versus undefined distinction. -/
def cfgJs : CacheConfig Int JsVal JsVal Nat where
  serializeKey := fun i => toString i
  serializeValue := fun v => v
  deserializeValue := fun v => v
  expiration := 0
  bypassGet := fun _ => false
  bypassSet := fun _ => false

/-- Deterministic sample logic returning ten times its input. -/
def logicTimesTen : Int → Except String (Option Int) :=
  fun i => Except.ok (some (i * 10))

/-- Sample logic that always returns `undefined`. -/
def logicUndef : Int → Except String (Option Int) :=
  fun _ => Except.ok none

/-- Sample logic that always returns `null`. -/
def logicNull : Int → Except String (Option JsVal) :=
  fun _ => Except.ok (some JsVal.vnull)

/-- Sample logic that always throws. -/
def logicThrows : Int → Except String (Option Int) :=
  fun _ => Except.error "boom"

/-- The doubling toValue function of the update scenario, mapping the
present cached output to twice its value. -/
def doubleCached : Option Int → Option Int :=
  Option.map (fun w => w * 2)

/-!
The claims.
-/

/-- C1: for every invocation where the get bypass predicate is false
and the cache get for the derived key yields a present value, the
wrapper returns the deserialized cached value and the wrapped logic is
not invoked; hence, for an input whose (non-bypassed) call computes a
present output with a present serialization against a fresh key,
repeated sequential calls invoke the logic exactly once and every call
(the first included) returns the same value, namely the
deserialization of the stored serialized output. -/
theorem claim_C1_hit_and_idempotence {I O V D E : Type}
    (cfg : CacheConfig I O V D) (logic : I → Except E (Option O))
    (store : Store V) (x : I) (o : O) (cv : V)
    (hbg : cfg.bypassGet x = false) (hbs : cfg.bypassSet x = false)
    (hmiss : store (cfg.serializeKey x) = none)
    (hlogic : logic x = Except.ok (some o))
    (hser : cfg.serializeValue (some o) = some cv) :
    (∀ (s : Store V) (cv0 : V), s (cfg.serializeKey x) = some cv0 →
        (withSimpleCacheInvoke cfg logic s x).1 =
            Except.ok (cfg.deserializeValue (some cv0)) ∧
        countLogicCalls (withSimpleCacheInvoke cfg logic s x).2.2 = 0) ∧
    (∀ n : Nat,
        countLogicCalls (runCalls cfg logic x (n + 1) store).2.2 = 1 ∧
        (runCalls cfg logic x (n + 1) store).1 =
          List.replicate (n + 1) (Except.ok (cfg.deserializeValue (some cv)))) := by
  constructor
  · intro s cv0 hhit
    rw [invoke_hit cfg logic s x cv0 hbg hhit]
    simp [countLogicCalls]
  · intro n
    obtain ⟨h1, h2, h3⟩ :=
      runCalls_miss_then_hit cfg logic store x o cv n hbg hbs hmiss hlogic hser
    exact ⟨h3, h1⟩

/-- C1 witness: three repeated calls with input 5 against a fresh
backend invoke the logic exactly once. -/
theorem claim_C1_witness :
    countLogicCalls (runCalls cfgInt logicTimesTen 5 (2 + 1) Store.empty).2.2 = 1 :=
  ((claim_C1_hit_and_idempotence cfgInt logicTimesTen Store.empty 5 50 50
      rfl rfl rfl rfl rfl).2 2).1

/-- C2: on a cache miss the wrapper writes the serialized output,
immediately re-reads the same key (the trace records the second cache
get after the write), and returns the deserialization of that freshly
read value rather than the locally held output; consequently the
populating miss call and the subsequent hit call return the same value
for an arbitrary, even lossy, (serialize, deserialize) pair. -/
theorem claim_C2_get_after_set_equivalence {I O V D E : Type}
    (cfg : CacheConfig I O V D) (logic : I → Except E (Option O))
    (store : Store V) (x : I) (o : O) (cv : V)
    (hbg : cfg.bypassGet x = false) (hbs : cfg.bypassSet x = false)
    (hmiss : store (cfg.serializeKey x) = none)
    (hlogic : logic x = Except.ok (some o))
    (hser : cfg.serializeValue (some o) = some cv) :
    withSimpleCacheInvoke cfg logic store x =
      (Except.ok (cfg.deserializeValue (some cv)),
        Store.set store (cfg.serializeKey x) (some cv),
        [Event.cacheGet (cfg.serializeKey x) none, Event.logicCalled x,
         Event.cacheSet (cfg.serializeKey x) (some cv) (some cfg.expiration),
         Event.cacheGet (cfg.serializeKey x) (some cv), Event.deserCalled (some cv)]) ∧
    (withSimpleCacheInvoke cfg logic
        (Store.set store (cfg.serializeKey x) (some cv)) x).1 =
      Except.ok (cfg.deserializeValue (some cv)) := by
  refine ⟨invoke_miss_ok cfg logic store x o cv hbg hbs hmiss hlogic hser, ?_⟩
  rw [invoke_hit cfg logic (Store.set store (cfg.serializeKey x) (some cv)) x cv hbg
    (Store.get_set_self store (cfg.serializeKey x) (some cv))]

/-- C2 witness: with a lossy deserializer that always returns the
fixed literal 99, the hit call that follows the populating miss call
returns that same lossy value, which is also what the miss call
itself returned. -/
theorem claim_C2_witness :
    (withSimpleCacheInvoke cfgLossy logicTimesTen
        (Store.set Store.empty (cfgLossy.serializeKey 5) (some 50)) 5).1 =
      Except.ok (cfgLossy.deserializeValue (some 50)) :=
  (claim_C2_get_after_set_equivalence cfgLossy logicTimesTen Store.empty 5 50 50
      rfl rfl rfl rfl rfl).2

/-- C5: when the wrapped logic throws (on a call that actually reaches
it: the get is bypassed or the key is a miss), the decorated call
propagates exactly that error, the store is unchanged, and no cache
write occurs. -/
theorem claim_C5_throw_propagates_no_write {I O V D E : Type}
    (cfg : CacheConfig I O V D) (logic : I → Except E (Option O))
    (store : Store V) (x : I) (e : E)
    (h : cfg.bypassGet x = true ∨ store (cfg.serializeKey x) = none)
    (hthrow : logic x = Except.error e) :
    (withSimpleCacheInvoke cfg logic store x).1 = Except.error e ∧
    (withSimpleCacheInvoke cfg logic store x).2.1 = store ∧
    countCacheSets (withSimpleCacheInvoke cfg logic store x).2.2 = 0 := by
  rcases h with hbg | hmiss
  · rw [invoke_bypassGet_error cfg logic store x e hbg hthrow]
    simp [countCacheSets]
  · cases hbg : cfg.bypassGet x with
    | true =>
        rw [invoke_bypassGet_error cfg logic store x e hbg hthrow]
        simp [countCacheSets]
    | false =>
        rw [invoke_miss_error cfg logic store x e hbg hmiss hthrow]
        simp [countCacheSets]

/-- C5 witness: a throwing logic propagates its error through the
wrapper on a fresh backend. -/
theorem claim_C5_witness :
    (withSimpleCacheInvoke cfgInt logicThrows Store.empty 5).1 =
      Except.error "boom" :=
  (claim_C5_throw_propagates_no_write cfgInt logicThrows Store.empty 5 "boom"
      (Or.inr rfl) rfl).1

/-- C3: a burst of n concurrent calls with identical input shares one
pipeline: exactly one pipeline execution is started (promise 0, for
that input) and every call of the burst returns that same promise; the
single pipeline execution invokes the wrapped logic exactly once and
performs exactly one backend write; and once the shared promise
settles, with a resolution or a rejection alike, the call yields the
pipeline outcome and the in-flight deduplication entry for the key is
removed. -/
theorem claim_C3_concurrent_dedup {I O V D E : Type}
    (cfg : CacheConfig I O V D) (logic : I → Except E (Option O))
    (backend : Store V) (x : I) (o : O) (cv : V) (n : Nat)
    (hn : 0 < n)
    (hbg : cfg.bypassGet x = false) (hbs : cfg.bypassSet x = false)
    (hmiss : backend (cfg.serializeKey x) = none)
    (hlogic : logic x = Except.ok (some o))
    (hser : cfg.serializeValue (some o) = some cv) :
    (startCalls (O := O) (V := V) (D := D) cfg x n DedupState.init).2.pipelines = [(0, x)] ∧
    (startCalls (O := O) (V := V) (D := D) cfg x n DedupState.init).1 =
        List.replicate n 0 ∧
    countLogicCalls (withSimpleCacheInvoke cfg logic backend x).2.2 = 1 ∧
    countCacheSets (withSimpleCacheInvoke cfg logic backend x).2.2 = 1 ∧
    (∀ (r : Except E (Option O)) (st : DedupState I),
        (settleCall cfg r st x).1 = r ∧
        (settleCall cfg r st x).2.dedup (cfg.serializeKey x) = none) := by
  obtain ⟨m, rfl⟩ : ∃ m, n = m + 1 := ⟨n - 1, (Nat.succ_pred_eq_of_pos hn).symm⟩
  rw [startCalls_fresh (O := O) (V := V) (D := D) cfg x m,
    invoke_miss_ok cfg logic backend x o cv hbg hbs hmiss hlogic hser]
  refine ⟨rfl, rfl, by simp [countLogicCalls], by simp [countCacheSets], ?_⟩
  intro r st
  exact ⟨rfl, Store.get_set_self st.dedup (cfg.serializeKey x) none⟩

/-- C3 witness: three concurrent calls with input 5 start exactly one
pipeline, for that input. -/
theorem claim_C3_witness :
    (startCalls cfgInt 5 3 DedupState.init).2.pipelines = [(0, 5)] :=
  (claim_C3_concurrent_dedup cfgInt logicTimesTen Store.empty 5 50 50 3
      (by decide) rfl rfl rfl rfl rfl).1

/-- C4: when the wrapped logic returns `undefined` (and the serializer
preserves `undefined`, as the default one does), the wrapper returns
`undefined` directly: the trace shows the write but no get-after-set
re-read and no deserializer application, the value is never treated as
cached, and the logic runs again on every one of the n repeated calls;
whereas a `null` output is a present cached value: repeated calls with
a null-returning logic invoke it exactly once. -/
theorem claim_C4_undefined_not_cached_null_cached {I O V D E : Type}
    (cfg : CacheConfig I O V D) (logic : I → Except E (Option O))
    (store : Store V) (x : I)
    (hbg : cfg.bypassGet x = false) (hbs : cfg.bypassSet x = false)
    (hmiss : store (cfg.serializeKey x) = none)
    (hlogic : logic x = Except.ok none)
    (hsu : cfg.serializeValue none = none) :
    withSimpleCacheInvoke cfg logic store x =
      (Except.ok none, Store.set store (cfg.serializeKey x) none,
        [Event.cacheGet (cfg.serializeKey x) none, Event.logicCalled x,
         Event.cacheSet (cfg.serializeKey x) none (some cfg.expiration)]) ∧
    (∀ n : Nat, countLogicCalls (runCalls cfg logic x n store).2.2 = n) ∧
    (∀ (store2 : Store JsVal) (y : Int) (n : Nat),
        store2 (cfgJs.serializeKey y) = none →
        countLogicCalls (runCalls cfgJs logicNull y (n + 1) store2).2.2 = 1) := by
  refine ⟨?_, ?_, ?_⟩
  · have h := invoke_miss_undefined cfg logic store x hbg hbs hmiss hlogic
    rw [hsu] at h
    exact h
  · intro n
    exact runCalls_undefined cfg logic x n store hbg hbs hlogic hsu hmiss
  · intro store2 y n h2
    exact (runCalls_miss_then_hit cfgJs logicNull store2 y JsVal.vnull JsVal.vnull n
      rfl rfl h2 rfl rfl).2.2

/-- C4 witness: three repeated calls whose logic returns `undefined`
invoke the logic three times. -/
theorem claim_C4_witness :
    countLogicCalls (runCalls cfgInt logicUndef 5 3 Store.empty).2.2 = 3 :=
  ((claim_C4_undefined_not_cached_null_cached cfgInt logicUndef Store.empty 5
      rfl rfl rfl rfl rfl).2.1) 3

/-- C6: invalidate derives the key from forInput with the same key
serializer execute uses, or accepts a forKey key verbatim, and writes
`undefined` for that key with no set options and without invoking the
wrapped logic; afterwards (the entry being `undefined`) the next
execute call for that key invokes the logic again. -/
theorem claim_C6_invalidate_then_recompute {I O V D E : Type}
    (cfg : CacheConfig I O V D) (logic : I → Except E (Option O))
    (store : Store V) (x : I) (k : String) (oc : Option (Store V)) :
    extInvalidate cfg (CacheChoice.fixed store) (KeyArgs.forInput x) =
      Except.ok (Store.set store (cfg.serializeKey x) none,
        [Event.cacheSet (cfg.serializeKey x) none none]) ∧
    extInvalidate cfg (CacheChoice.fixed store) (KeyArgs.forKey k oc) =
      Except.ok (Store.set store k none, [Event.cacheSet k none none]) ∧
    countLogicCalls ([(Event.cacheSet (cfg.serializeKey x) none none : Event I O V D)]) = 0 ∧
    countLogicCalls (withSimpleCacheInvoke cfg logic
        (Store.set store (cfg.serializeKey x) none) x).2.2 = 1 := by
  refine ⟨extInvalidate_fixed cfg store (KeyArgs.forInput x),
    extInvalidate_fixed cfg store (KeyArgs.forKey k oc),
    by simp [countLogicCalls], ?_⟩
  exact invoke_miss_countLogic cfg logic (Store.set store (cfg.serializeKey x) none) x
    (Or.inr (Store.get_set_self store (cfg.serializeKey x) none))

/-- C6 witness: after the entry for the key of input 5 is set to
`undefined` over a backend that previously held it, the next call
invokes the logic again. -/
theorem claim_C6_witness :
    countLogicCalls (withSimpleCacheInvoke cfgInt logicTimesTen
        (Store.set (Store.set Store.empty (cfgInt.serializeKey 5) (some 50))
          (cfgInt.serializeKey 5) none) 5).2.2 = 1 :=
  (claim_C6_invalidate_then_recompute cfgInt logicTimesTen
      (Store.set Store.empty (cfgInt.serializeKey 5) (some 50)) 5 "k" none).2.2.2

/-- C7: update with a function toValue reads the current cached value,
deserializes it and passes it as fromCachedOutput to the function,
serializes the function result with the execute serializer, and writes
it with the configured expiration under the same key execute derives;
afterwards the next execute call for that input returns the updated
value without invoking the wrapped logic (stated for a serde pair that
round-trips at the updated value, as the identity defaults do). -/
theorem claim_C7_update_with_derivation {I O V D E : Type}
    (cfg : CacheConfig I O V D) (logic : I → Except E (Option O))
    (store : Store V) (x : I) (f : Option O → Option O) (cv cw : V) (v : O)
    (hbg : cfg.bypassGet x = false)
    (hprior : store (cfg.serializeKey x) = some cv)
    (hdes : cfg.deserializeValue (some cv) = some v)
    (hser2 : cfg.serializeValue (f (some v)) = some cw)
    (hdes2 : cfg.deserializeValue (some cw) = f (some v)) :
    extUpdate cfg (CacheChoice.fixed store) (KeyArgs.forInput x)
        (ToValue.derive f) =
      Except.ok (Store.set store (cfg.serializeKey x) (some cw),
        [Event.cacheGet (cfg.serializeKey x) (some cv),
         Event.deserCalled (some cv),
         Event.cacheSet (cfg.serializeKey x) (some cw) (some cfg.expiration)]) ∧
    (withSimpleCacheInvoke cfg logic
        (Store.set store (cfg.serializeKey x) (some cw)) x).1 =
      Except.ok (f (some v)) ∧
    countLogicCalls (withSimpleCacheInvoke cfg logic
        (Store.set store (cfg.serializeKey x) (some cw)) x).2.2 = 0 := by
  refine ⟨?_, ?_, ?_⟩
  · have h := extUpdate_fixed_present cfg store (KeyArgs.forInput x)
      (ToValue.derive f) cv hprior
    simp only [resolveToValue, extKeyOf, hdes, hser2] at h
    exact h
  · rw [invoke_hit cfg logic (Store.set store (cfg.serializeKey x) (some cw)) x cw hbg
      (Store.get_set_self store (cfg.serializeKey x) (some cw)), hdes2]
  · rw [invoke_hit cfg logic (Store.set store (cfg.serializeKey x) (some cw)) x cw hbg
      (Store.get_set_self store (cfg.serializeKey x) (some cw))]
    simp [countLogicCalls]

/-- C7 witness: with a prior cached value 7 and the doubling toValue
function, the next call returns 14 without invoking the logic. -/
theorem claim_C7_witness :
    (withSimpleCacheInvoke cfgInt logicTimesTen
        (Store.set (Store.set Store.empty (cfgInt.serializeKey 5) (some 7))
          (cfgInt.serializeKey 5) (some 14)) 5).1 =
      Except.ok (doubleCached (some 7)) :=
  (claim_C7_update_with_derivation cfgInt logicTimesTen
      (Store.set Store.empty (cfgInt.serializeKey 5) (some 7)) 5 doubleCached 7 14 7
      rfl rfl rfl rfl rfl).2.1

/-- C8: the configured expiration is forwarded verbatim in the set
options of every cache write performed by an execute invocation and of
every cache write performed by an update (update shares the serializer
and expiration configuration with execute). -/
theorem claim_C8_expiration_forwarded {I O V D E : Type}
    (cfg : CacheConfig I O V D) (logic : I → Except E (Option O))
    (store : Store V) (x : I)
    (choice : CacheChoice I (Store V)) (args : KeyArgs I (Store V)) (tv : ToValue O)
    (s1 : Store V) (tr : List (Event I O V D))
    (h : extUpdate cfg choice args tv = Except.ok (s1, tr)) :
    (∀ o ∈ setEventOpts (withSimpleCacheInvoke cfg logic store x).2.2,
        o = some cfg.expiration) ∧
    (∀ o ∈ setEventOpts tr, o = some cfg.expiration) :=
  ⟨invoke_setOpts cfg logic store x, extUpdate_setOpts cfg choice args tv s1 tr h⟩

/-- C8 witness: the single write of a populating call on input 5
carries the configured expiration 42 in its options. -/
theorem claim_C8_witness :
    (some 42 : Option Nat) = some cfgInt.expiration :=
  (claim_C8_expiration_forwarded cfgInt logicTimesTen Store.empty 5
      (CacheChoice.fixed Store.empty) (KeyArgs.forInput 5) (ToValue.literal (some 3))
      (Store.set Store.empty (cfgInt.serializeKey 5) (some 3))
      [Event.cacheGet (cfgInt.serializeKey 5) none,
       Event.cacheSet (cfgInt.serializeKey 5) (some 3) (some 42)]
      rfl).1 (some 42) (by decide)

set_option maxRecDepth 8192 in
/-- C9: a forKey invalidate or update whose configured cache choice is
a resolver and which is given no explicit cache throws the
configuration error whose message names the failing operation (the
message decomposes around the operation name); with an explicit cache
supplied in that situation that cache is used, and with a fixed
configured cache choice the fixed instance is used. -/
theorem claim_C9_forKey_cache_requirement {I O V D : Type}
    (cfg : CacheConfig I O V D) (f : I → Option (Store V)) (k : String)
    (c : Store V) (oc : Option (Store V)) (tv : ToValue O) :
    extInvalidate cfg (CacheChoice.resolver f) (KeyArgs.forKey k none) =
      Except.error (BadRequestError.mk (forKeyCacheMissingMessage Trigger.invalidate)) ∧
    extUpdate cfg (CacheChoice.resolver f) (KeyArgs.forKey k none) tv =
      Except.error (BadRequestError.mk (forKeyCacheMissingMessage Trigger.update)) ∧
    (∃ pre post : String, forKeyCacheMissingMessage Trigger.invalidate =
        pre ++ "invalidate" ++ post) ∧
    (∃ pre post : String, forKeyCacheMissingMessage Trigger.update =
        pre ++ "update" ++ post) ∧
    extInvalidate cfg (CacheChoice.resolver f) (KeyArgs.forKey k (some c)) =
      Except.ok (Store.set c k none, [Event.cacheSet k none none]) ∧
    extInvalidate cfg (CacheChoice.fixed c) (KeyArgs.forKey k oc) =
      Except.ok (Store.set c k none, [Event.cacheSet k none none]) := by
  refine ⟨extInvalidate_resolver_forKey_none cfg f k,
    extUpdate_resolver_forKey_none cfg f k tv,
    ⟨"could not find the cache to ",
      " in. invalidate was called forKey but the cache for this method was defined as a function which retrieves the cache from the input. therefore, since there is no input accessible, the cache should have been explicitly passed in on invalidate",
      by decide⟩,
    ⟨"could not find the cache to ",
      " in. update was called forKey but the cache for this method was defined as a function which retrieves the cache from the input. therefore, since there is no input accessible, the cache should have been explicitly passed in on update",
      by decide⟩,
    extInvalidate_resolver_forKey_some cfg f k c, ?_⟩
  exact extInvalidate_fixed cfg c (KeyArgs.forKey k oc)

/-- C10: the value deserializer is never applied to `undefined`: every
deserializer application recorded by a pipeline invocation (the hit
path and the get-after-set path) and by an update read received a
present cached value. -/
theorem claim_C10_deser_only_present {I O V D E : Type}
    (cfg : CacheConfig I O V D) (logic : I → Except E (Option O))
    (store : Store V) (x : I)
    (choice : CacheChoice I (Store V)) (args : KeyArgs I (Store V)) (tv : ToValue O)
    (s1 : Store V) (tr : List (Event I O V D))
    (h : extUpdate cfg choice args tv = Except.ok (s1, tr)) :
    (∀ a ∈ deserArgs (withSimpleCacheInvoke cfg logic store x).2.2, a.isSome = true) ∧
    (∀ a ∈ deserArgs tr, a.isSome = true) :=
  ⟨invoke_deserArgs cfg logic store x, extUpdate_deserArgs cfg choice args tv s1 tr h⟩

/-- C10 witness: the deserializer application of a hit call on a
backend holding 50 received the present value 50. -/
theorem claim_C10_witness :
    (some (50 : Int) : Option Int).isSome = true :=
  (claim_C10_deser_only_present cfgInt logicTimesTen
      (Store.set Store.empty (cfgInt.serializeKey 5) (some 50)) 5
      (CacheChoice.fixed Store.empty) (KeyArgs.forInput 5) (ToValue.literal (some 3))
      (Store.set Store.empty (cfgInt.serializeKey 5) (some 3))
      [Event.cacheGet (cfgInt.serializeKey 5) none,
       Event.cacheSet (cfgInt.serializeKey 5) (some 3) (some 42)]
      rfl).1 (some 50) (by decide)

end WSC
